import Mathlib

/-!
Verification of the label-assignment core of the street-sign labeling app
(`src/app.py`): coverage accounting over label events, eligible-image
selection, count of labeled images, random image choice, catalog loading,
login validation and the progress-bar block.

Label events are the rows of the `labels` table (columns `user`, `image`,
`label`, `timestamp`).  The dictionary `counts` built by
`get_unlabeled_images` / `get_count` maps each image occurring in some row
to the set of users who labeled it; it is modelled as a pair of its key set
and its lookup function (defaulting to the empty set, matching
`counts.get(img, set())`).
-/

namespace StreetSign

/-- One row of the `labels` table, as returned by `fetch_labels`. -/
structure Row where
  user : String
  image : String
  label : String
  timestamp : String
deriving DecidableEq

/-- The `counts` dictionary: its key set and its lookup function
(`counts.get(img, set())`, i.e. defaulting to the empty set). -/
abbrev Counts := Finset String × (String → Finset String)

/-- One iteration of the loop
`counts[r["image"]] = counts.get(r["image"], set()); counts[r["image"]].add(r["user"])`. -/
def countsStep (c : Counts) (r : Row) : Counts :=
  (insert r.image c.1, Function.update c.2 r.image (insert r.user (c.2 r.image)))

/-- The whole loop `for r in rows: ...` building `counts`, common to
`get_unlabeled_images` and `get_count` in `src/app.py`. -/
def buildCounts (rows : List Row) : Counts :=
  rows.foldl countsStep (∅, fun _ => ∅)

/-- `get_unlabeled_images(all_images)` from `src/app.py`:
`[img for img in all_images if len(counts.get(img, set())) < 2]`. -/
def get_unlabeled_images (rows : List Row) (all_images : List String) : List String :=
  let counts := buildCounts rows
  all_images.filter (fun img => (counts.2 img).card < 2)

/-- `get_count(min_users=1)` from `src/app.py`, with its special-cased
`min_users == 1` branch and the general branch. -/
def get_count (rows : List Row) (min_users : Nat) : Nat :=
  let counts := buildCounts rows
  if min_users = 1 then
    (counts.1.filter (fun img => 1 ≤ (counts.2 img).card)).card
  else
    (counts.1.filter (fun img => min_users ≤ (counts.2 img).card)).card

/-- Spec-side helper: the user values of the events for one image, in event
order. -/
def usersOf (rows : List Row) (img : String) : List String :=
  rows.filterMap (fun r => if r.image = img then some r.user else none)

/-- Spec-side definition: the set of distinct `user` values among the events
for `img` (the spec's coverage of an image). -/
def distinctUsers (rows : List Row) (img : String) : Finset String :=
  (usersOf rows img).toFinset

/-- `select_random_image(unlabeled)` from `src/app.py`:
`random.choice(unlabeled) if unlabeled else None`.  The random draw of
`random.choice` is made explicit as the index `k` it picks
(`random.choice(seq)` evaluates `seq[randbelow(len(seq))]`, raising
`IndexError` when the sequence is empty); `Except.error ()` models that
`IndexError`. -/
def select_random_image (unlabeled : List String) (k : Nat) :
    Except Unit (Option String) :=
  if unlabeled = [] then Except.ok none
  else
    match unlabeled.get? k with
    | some img => Except.ok (some img)
    | none => Except.error ()

/-- Python's `str.strip()`: remove whitespace from both ends of the
string. -/
def pyStrip (s : String) : String :=
  ⟨((s.data.dropWhile Char.isWhitespace).reverse.dropWhile Char.isWhitespace).reverse⟩

/-- `load_images_list()` from `src/app.py`.  The file system is made
explicit: `test_file` is `none` when `test.txt` is missing, otherwise the
list of its lines.  The Bool records whether `st.error` was shown. -/
def load_images_list (test_file : Option (List String)) : Bool × List String :=
  match test_file with
  | none => (true, [])
  | some ls => (false, ls.foldl (fun acc line =>
      if pyStrip line ≠ "" then acc ++ [pyStrip line] else acc) [])

/-- The login block of `src/app.py` (lines 182-193), run when the session
user is `None` and `Start` is pressed: the resulting session user, whether
the `st.warning` was shown, and the label store (which the block never
touches). -/
def login_submit (events : List Row) (name : String) :
    Option String × Bool × List Row :=
  if pyStrip name ≠ "" then (some (pyStrip name), false, events)
  else (none, true, events)

/-- What the main labeling block renders: either the terminal "all images
have been labeled twice" view, or the labeling view with its progress bar
`st.progress(min(user_count_once / total_images, 1.0))`. -/
inductive MainView where
  | allDone : MainView
  | progress (frac : ℚ) (user_count_once : Nat) (total_images : Nat) : MainView
deriving DecidableEq

/-- The main labeling block of `src/app.py` (lines 197-257): if
`get_unlabeled_images(all_images)` is empty the all-done view is shown,
otherwise the labeling view with the progress fraction
`min(user_count_once / total_images, 1.0)`. -/
def mainView (rows : List Row) (all_images : List String) : MainView :=
  let unlabeled := get_unlabeled_images rows all_images
  if unlabeled = [] then MainView.allDone
  else
    let user_count_once := get_count rows 1
    let total_images := all_images.length
    MainView.progress (min ((user_count_once : ℚ) / (total_images : ℚ)) 1)
      user_count_once total_images

/-! ### Characterization of the `counts` dictionary -/

lemma countsStep_snd (c : Counts) (r : Row) (img : String) :
    (countsStep c r).2 img =
      if img = r.image then insert r.user (c.2 img) else c.2 img := by
  simp only [countsStep, Function.update]
  split
  · next h => subst h; rfl
  · rfl

lemma usersOf_cons (r : Row) (rows : List Row) (img : String) :
    usersOf (r :: rows) img =
      if r.image = img then r.user :: usersOf rows img else usersOf rows img := by
  simp only [usersOf, List.filterMap_cons]
  split <;> simp_all

lemma foldl_countsStep_snd (rows : List Row) (c : Counts) (img : String) :
    (rows.foldl countsStep c).2 img = c.2 img ∪ (usersOf rows img).toFinset := by
  induction rows generalizing c with
  | nil => simp [usersOf]
  | cons r rows ih =>
      rw [List.foldl_cons, ih, countsStep_snd, usersOf_cons]
      by_cases h : r.image = img
      · rw [if_pos h, if_pos h.symm, List.toFinset_cons, Finset.insert_union,
          Finset.union_insert]
      · rw [if_neg h, if_neg (fun hh => h hh.symm)]

lemma foldl_countsStep_fst (rows : List Row) (c : Counts) :
    (rows.foldl countsStep c).1 = c.1 ∪ (rows.map Row.image).toFinset := by
  induction rows generalizing c with
  | nil => simp
  | cons r rows ih =>
      rw [List.foldl_cons, ih]
      simp only [countsStep, List.map_cons, List.toFinset_cons,
        Finset.insert_union, Finset.union_insert]

lemma buildCounts_snd (rows : List Row) (img : String) :
    (buildCounts rows).2 img = distinctUsers rows img := by
  rw [buildCounts, foldl_countsStep_snd, distinctUsers]
  exact Finset.empty_union _

lemma buildCounts_fst (rows : List Row) :
    (buildCounts rows).1 = (rows.map Row.image).toFinset := by
  rw [buildCounts, foldl_countsStep_fst]
  exact Finset.empty_union _

lemma mem_distinctUsers (rows : List Row) (img u : String) :
    u ∈ distinctUsers rows img ↔ ∃ r ∈ rows, r.image = img ∧ r.user = u := by
  simp only [distinctUsers, usersOf, List.mem_toFinset, List.mem_filterMap]
  constructor
  · rintro ⟨r, hr, h⟩
    by_cases hi : r.image = img
    · rw [if_pos hi] at h
      exact ⟨r, hr, hi, Option.some_injective _ h⟩
    · rw [if_neg hi] at h
      exact absurd h (by simp)
  · rintro ⟨r, hr, hi, hu⟩
    exact ⟨r, hr, by rw [if_pos hi, hu]⟩

lemma get_count_eq (rows : List Row) (min_users : Nat) :
    get_count rows min_users =
      ((buildCounts rows).1.filter
        (fun img => min_users ≤ ((buildCounts rows).2 img).card)).card := by
  rw [get_count]
  split
  · next h => subst h; rfl
  · rfl

/-! ### Claim theorems -/

/-- Claim C1: for every sequence of label events, the coverage computed for
an image equals the set of distinct user values among the events for that
image, and appending a repeated event from a (user, image) pair already
present does not change the coverage mapping (set semantics, not event
count). -/
theorem coverage_is_distinct_user_set :
    (∀ (rows : List Row) (img : String),
        (buildCounts rows).2 img = distinctUsers rows img) ∧
    (∀ (rows : List Row) (r : Row),
        (∃ p ∈ rows, p.user = r.user ∧ p.image = r.image) →
        ∀ img, (buildCounts (rows ++ [r])).2 img = (buildCounts rows).2 img) := by
  refine ⟨buildCounts_snd, ?_⟩
  rintro rows r ⟨p, hp, hpu, hpi⟩ img
  rw [buildCounts_snd, buildCounts_snd, distinctUsers, distinctUsers, usersOf,
    List.filterMap_append, List.toFinset_append]
  by_cases h : r.image = img
  · have hmem : r.user ∈ (usersOf rows img).toFinset := by
      rw [List.mem_toFinset]
      simp only [usersOf, List.mem_filterMap]
      exact ⟨p, hp, by rw [if_pos (hpi.trans h), hpu]⟩
    have : (List.filterMap
        (fun q => if q.image = img then some q.user else none) [r]).toFinset
        = {r.user} := by
      simp [List.filterMap, if_pos h]
    rw [this]
    exact Finset.union_eq_left.mpr (Finset.singleton_subset_iff.mpr hmem)
  · have : (List.filterMap
        (fun q => if q.image = img then some q.user else none) [r]).toFinset
        = ∅ := by
      simp [List.filterMap, if_neg h]
    rw [this]
    exact Finset.union_empty _

/-- Witness for C1 at a concrete duplicate: the event list
`[(A, img1), (B, img1)]` extended by a second `(A, img1)` event (with a
different timestamp) has the same coverage mapping at `img1`. -/
theorem coverage_is_distinct_user_set_witness :
    (buildCounts ([⟨"A", "img1", "[]", "t0"⟩, ⟨"B", "img1", "[]", "t1"⟩] ++
        [⟨"A", "img1", "[]", "t2"⟩])).2 "img1"
      = (buildCounts [⟨"A", "img1", "[]", "t0"⟩, ⟨"B", "img1", "[]", "t1"⟩]).2 "img1" :=
  coverage_is_distinct_user_set.2
    [⟨"A", "img1", "[]", "t0"⟩, ⟨"B", "img1", "[]", "t1"⟩]
    ⟨"A", "img1", "[]", "t2"⟩
    ⟨⟨"A", "img1", "[]", "t0"⟩, by simp, rfl, rfl⟩ "img1"

/-- Claim C2: the eligible-image sequence is exactly the catalog images
whose distinct-user coverage is below 2, in catalog order (a sublist of the
catalog); an image with coverage at least 2 never appears, and a catalog
image with no events at all is eligible. -/
theorem eligible_iff_coverage_lt_two :
    (∀ (rows : List Row) (all_images : List String),
        get_unlabeled_images rows all_images
          = all_images.filter (fun img => (distinctUsers rows img).card < 2)) ∧
    (∀ (rows : List Row) (all_images : List String),
        (get_unlabeled_images rows all_images).Sublist all_images) ∧
    (∀ (rows : List Row) (all_images : List String) (img : String),
        2 ≤ (distinctUsers rows img).card →
        img ∉ get_unlabeled_images rows all_images) ∧
    (∀ (rows : List Row) (all_images : List String) (img : String),
        img ∈ all_images → (∀ r ∈ rows, r.image ≠ img) →
        img ∈ get_unlabeled_images rows all_images) := by
  have hfe : ∀ (rows : List Row) (all_images : List String),
      get_unlabeled_images rows all_images
        = all_images.filter (fun img => (distinctUsers rows img).card < 2) := by
    intro rows all_images
    simp only [get_unlabeled_images, buildCounts_snd]
  refine ⟨hfe, ?_, ?_, ?_⟩
  · intro rows all_images
    exact List.filter_sublist _
  · intro rows all_images img h hmem
    rw [hfe] at hmem
    rw [List.mem_filter] at hmem
    have := of_decide_eq_true hmem.2
    omega
  · intro rows all_images img hall hno
    rw [hfe, List.mem_filter]
    refine ⟨hall, decide_eq_true ?_⟩
    have : usersOf rows img = [] := by
      rw [usersOf, List.filterMap_eq_nil_iff]
      intro r hr
      rw [if_neg (hno r hr)]
    rw [distinctUsers, this]
    simp

/-- Witness for C2 at concrete inputs: `img1`, labeled by two distinct
users, is not eligible, while `img2`, with no events, is. -/
theorem eligible_iff_coverage_lt_two_witness :
    "img1" ∉ get_unlabeled_images
        [⟨"A", "img1", "[]", "t0"⟩, ⟨"B", "img1", "[]", "t1"⟩] ["img1", "img2"] ∧
    "img2" ∈ get_unlabeled_images
        [⟨"A", "img1", "[]", "t0"⟩, ⟨"B", "img1", "[]", "t1"⟩] ["img1", "img2"] := by
  constructor
  · exact eligible_iff_coverage_lt_two.2.2.1
      [⟨"A", "img1", "[]", "t0"⟩, ⟨"B", "img1", "[]", "t1"⟩] ["img1", "img2"]
      "img1" (by decide)
  · exact eligible_iff_coverage_lt_two.2.2.2
      [⟨"A", "img1", "[]", "t0"⟩, ⟨"B", "img1", "[]", "t1"⟩] ["img1", "img2"]
      "img2" (by decide) (by decide)

/-- Claim C7: building the coverage index is a pure, deterministic,
order-independent function of the event sequence: permuting the events
yields the identical key-set-and-mapping pair, and recomputing from the
same events yields the identical result. -/
theorem coverage_index_perm_invariant :
    (∀ (rows1 rows2 : List Row), rows1.Perm rows2 →
        buildCounts rows1 = buildCounts rows2) ∧
    (∀ rows : List Row, buildCounts rows = buildCounts rows) := by
  refine ⟨?_, fun _ => rfl⟩
  intro rows1 rows2 hperm
  have h1 : (buildCounts rows1).1 = (buildCounts rows2).1 := by
    rw [buildCounts_fst, buildCounts_fst]
    ext img
    rw [List.mem_toFinset, List.mem_toFinset]
    exact (hperm.map Row.image).mem_iff
  have h2 : (buildCounts rows1).2 = (buildCounts rows2).2 := by
    funext img
    rw [buildCounts_snd, buildCounts_snd, distinctUsers, distinctUsers]
    ext u
    rw [List.mem_toFinset, List.mem_toFinset]
    exact (hperm.filterMap _).mem_iff
  exact Prod.ext h1 h2

/-- Witness for C7 at a concrete permutation: swapping two events leaves the
coverage index unchanged. -/
theorem coverage_index_perm_invariant_witness :
    buildCounts [⟨"A", "img1", "[]", "t0"⟩, ⟨"B", "img2", "[]", "t1"⟩]
      = buildCounts [⟨"B", "img2", "[]", "t1"⟩, ⟨"A", "img1", "[]", "t0"⟩] :=
  coverage_index_perm_invariant.1
    [⟨"A", "img1", "[]", "t0"⟩, ⟨"B", "img2", "[]", "t1"⟩]
    [⟨"B", "img2", "[]", "t1"⟩, ⟨"A", "img1", "[]", "t0"⟩]
    (List.Perm.swap _ _ _)

/-- Claim C3, counterexample: with an empty catalog (and, concretely, no
events) the main block renders the all-done view, not a 0% progress report;
the claim that the progress fraction "reports 0%" in this case is false on
the code. -/
theorem empty_catalog_no_progress_report :
    mainView [] [] = MainView.allDone ∧
    mainView [] [] ≠ MainView.progress 0 0 0 := by
  constructor
  · rfl
  · intro h
    rw [show mainView [] [] = MainView.allDone from rfl] at h
    exact MainView.noConfusion h

/-- Claim C3, amended: when the catalog is empty the eligible list is
empty, so the all-done branch is taken and the progress fraction is never
computed; whenever the progress fraction is computed, `total_images` is
positive, so the division by zero cannot occur. -/
theorem empty_catalog_progress_guard :
    (∀ rows : List Row, mainView rows [] = MainView.allDone) ∧
    (∀ (rows : List Row) (all_images : List String) (frac : ℚ) (c t : Nat),
        mainView rows all_images = MainView.progress frac c t → 0 < t) := by
  constructor
  · intro rows
    rfl
  · intro rows all_images frac c t h
    by_cases hu : get_unlabeled_images rows all_images = []
    · simp only [mainView, hu, if_pos] at h
      exact absurd h (by simp)
    · simp only [mainView, if_neg hu] at h
      obtain ⟨-, -, ht⟩ := MainView.progress.inj h
      rw [← ht, List.length_pos]
      intro hnil
      exact hu (by rw [hnil]; rfl)

/-- Witness for the amended C3: with one catalog image and no events, the
progress view is rendered with a positive total. -/
theorem empty_catalog_progress_guard_witness : (0 : Nat) < 1 :=
  empty_catalog_progress_guard.2 [] ["img1"] 0 0 1 (by
    show mainView [] ["img1"] = MainView.progress 0 0 1
    have h0 : get_count ([] : List Row) 1 = 0 := rfl
    simp [mainView, get_unlabeled_images, buildCounts, h0])

/-- Claim C4: for every event sequence and `min_users` at least 1,
`get_count` returns the number of images whose distinct-user coverage set
has size at least `min_users`. -/
theorem get_count_counts_covered_images :
    ∀ (rows : List Row) (min_users : Nat), 1 ≤ min_users →
      get_count rows min_users
        = Set.ncard {img : String | min_users ≤ (distinctUsers rows img).card} := by
  intro rows m hm
  rw [get_count_eq]
  simp only [buildCounts_fst, buildCounts_snd]
  have hset : {img : String | m ≤ (distinctUsers rows img).card}
      = ↑((rows.map Row.image).toFinset.filter
          (fun img => m ≤ (distinctUsers rows img).card)) := by
    ext img
    simp only [Set.mem_setOf_eq, Finset.coe_filter, Set.mem_setOf_eq,
      Finset.mem_filter, List.mem_toFinset, List.mem_map]
    constructor
    · intro h
      refine ⟨?_, h⟩
      have h1 : 0 < (distinctUsers rows img).card := lt_of_lt_of_le hm h
      obtain ⟨u, hu⟩ := Finset.card_pos.mp h1
      obtain ⟨r, hr, hi, -⟩ := (mem_distinctUsers rows img u).mp hu
      exact ⟨r, hr, hi⟩
    · exact And.right
  rw [hset, Set.ncard_coe_Finset]

/-- Witness for C4 at concrete inputs: two events by distinct users on
`img1` give exactly one image covered by at least 2 users. -/
theorem get_count_counts_covered_images_witness :
    get_count [⟨"A", "img1", "[]", "t0"⟩, ⟨"B", "img1", "[]", "t1"⟩] 2
      = Set.ncard {img : String |
          2 ≤ (distinctUsers
            [⟨"A", "img1", "[]", "t0"⟩, ⟨"B", "img1", "[]", "t1"⟩] img).card} :=
  get_count_counts_covered_images
    [⟨"A", "img1", "[]", "t0"⟩, ⟨"B", "img1", "[]", "t1"⟩] 2 (by decide)

/-- Claim C5: a login name that is empty after trimming is rejected with a
warning, the session user stays unset and the label store is unchanged; a
name that is non-empty after trimming sets the session user to the trimmed
name (and the store is unchanged either way). -/
theorem login_empty_name_rejected :
    ∀ (events : List Row) (name : String),
      (pyStrip name = "" → login_submit events name = (none, true, events)) ∧
      (pyStrip name ≠ "" →
        login_submit events name = (some (pyStrip name), false, events)) := by
  intro events name
  constructor
  · intro h
    simp [login_submit, h]
  · intro h
    simp [login_submit, h]

/-- Witness for C5 at concrete names: whitespace-only input is rejected
with the store untouched, and a padded name logs in as its trimmed form. -/
theorem login_empty_name_rejected_witness :
    login_submit [] "   " = (none, true, []) ∧
    login_submit [] " Ada " = (some (pyStrip " Ada "), false, []) :=
  ⟨(login_empty_name_rejected [] "   ").1 (by decide),
   (login_empty_name_rejected [] " Ada ").2 (by decide)⟩

/-- Claim C6: `select_random_image` on the empty list returns `None`, and
on a one-element list `[x]` every possible random draw (any index below the
length) returns `x`, i.e. `x` is returned with probability 1. -/
theorem pickRandom_empty_and_singleton :
    (∀ k : Nat, select_random_image [] k = Except.ok none) ∧
    (∀ (x : String) (k : Nat), k < 1 →
        select_random_image [x] k = Except.ok (some x)) := by
  constructor
  · intro k
    rfl
  · intro x k hk
    interval_cases k
    rfl

/-- Witness for C6: the draw at index 0 from `["img1"]` returns `img1`. -/
theorem pickRandom_empty_and_singleton_witness :
    select_random_image ["img1"] 0 = Except.ok (some "img1") :=
  pickRandom_empty_and_singleton.2 "img1" 0 (by decide)

/-- Claim C9: under the contract of `random.choice` (the drawn index is
below the length), `select_random_image` always returns a member of its
nonempty input, never `None` and never the `IndexError` branch; it returns
`None` exactly on the empty list. -/
theorem select_random_image_total_member :
    (∀ (unlabeled : List String) (k : Nat), k < unlabeled.length →
        ∃ img ∈ unlabeled, select_random_image unlabeled k = Except.ok (some img)) ∧
    (∀ (unlabeled : List String) (k : Nat), k < unlabeled.length →
        select_random_image unlabeled k ≠ Except.error ()) ∧
    (∀ (unlabeled : List String) (k : Nat), k < unlabeled.length →
        select_random_image unlabeled k ≠ Except.ok none) ∧
    (∀ k : Nat, select_random_image [] k = Except.ok none) := by
  have key : ∀ (unlabeled : List String) (k : Nat) (hk : k < unlabeled.length),
      select_random_image unlabeled k
        = Except.ok (some (unlabeled.get ⟨k, hk⟩)) := by
    intro unlabeled k hk
    have hne : unlabeled ≠ [] := by
      intro hnil
      rw [hnil] at hk
      exact Nat.not_lt_zero k hk
    rw [select_random_image, if_neg hne, List.get?_eq_get hk]
  refine ⟨?_, ?_, ?_, fun _ => rfl⟩
  · intro unlabeled k hk
    exact ⟨unlabeled.get ⟨k, hk⟩, List.get_mem unlabeled k hk, key unlabeled k hk⟩
  · intro unlabeled k hk
    rw [key unlabeled k hk]
    intro h
    exact Except.noConfusion h
  · intro unlabeled k hk
    rw [key unlabeled k hk]
    intro h
    simp at h

/-- Witness for C9: both draws from the two-element list return a member,
never an error and never `None`. -/
theorem select_random_image_total_member_witness :
    (∃ img ∈ ["img1", "img2"],
        select_random_image ["img1", "img2"] 1 = Except.ok (some img)) ∧
    select_random_image ["img1", "img2"] 1 ≠ Except.error () ∧
    select_random_image ["img1", "img2"] 1 ≠ Except.ok none :=
  ⟨select_random_image_total_member.1 ["img1", "img2"] 1 (by decide),
   select_random_image_total_member.2.1 ["img1", "img2"] 1 (by decide),
   select_random_image_total_member.2.2.1 ["img1", "img2"] 1 (by decide)⟩

/-- Claim C8: a missing catalog source file reports a configuration error
and yields an empty catalog, so no image is eligible for presentation. -/
theorem missing_catalog_yields_empty :
    load_images_list none = (true, []) ∧
    (∀ rows : List Row, get_unlabeled_images rows (load_images_list none).2 = []) :=
  ⟨rfl, fun _ => rfl⟩

/-- Claim C10: `get_count` is computed from the stored events alone (it
takes no catalog argument, mirroring the code): both its special-cased
`min_users == 1` branch and its general branch equal the count over the
images occurring in events; at `min_users = 1` it counts every image
occurring in some event, so with one event and an empty catalog the count
exceeds the catalog length. -/
theorem get_count_ignores_catalog :
    (∀ (rows : List Row) (min_users : Nat),
        get_count rows min_users
          = ((buildCounts rows).1.filter
              (fun img => min_users ≤ ((buildCounts rows).2 img).card)).card) ∧
    (∀ rows : List Row, get_count rows 1 = ((rows.map Row.image).toFinset).card) ∧
    ([] : List String).length < get_count [⟨"A", "imgX", "[]", "t0"⟩] 1 := by
  have h2 : ∀ rows : List Row,
      get_count rows 1 = ((rows.map Row.image).toFinset).card := by
    intro rows
    rw [get_count_eq]
    simp only [buildCounts_fst, buildCounts_snd]
    congr 1
    apply Finset.filter_true_of_mem
    intro img hmem
    rw [List.mem_toFinset, List.mem_map] at hmem
    obtain ⟨r, hr, hi⟩ := hmem
    have : r.user ∈ distinctUsers rows img :=
      (mem_distinctUsers rows img r.user).mpr ⟨r, hr, hi, rfl⟩
    exact Finset.card_pos.mpr ⟨r.user, this⟩
  refine ⟨get_count_eq, h2, ?_⟩
  rw [h2]
  decide

end StreetSign
